import Mathlib

/-!
Verification development for the SteamDB extraction pipeline
(src/parsers/game_page_parser.py).

The document tree (BeautifulSoup) is an external collaborator: a `Doc`
records exactly the query results the block extractors read from the tree
(selected tables, cells, link texts, icon presence, heading texts, the
category block following a heading, price rows).  Every extractor, the
page-level merge, `flatten`, `join_list` and `load_app_ids` are translated
from the source.  Python dicts are modelled as association lists with
insertion-order update semantics; text helpers (strip, split, int parsing,
the two regular expressions) are implemented over `List Char` with the
exact backtracking behaviour of the Python `re` engine on those patterns.
Unicode word and digit classification is approximated by the ASCII
classes; the only non-ASCII characters the claims touch are decorative
glyphs, which are non-word in both readings.
-/

/-- Python whitespace characters as used by str.strip, str.split and the
regex class backslash-s (ASCII part). -/
def isPySpace (c : Char) : Bool :=
  c == ' ' || c == '\t' || c == '\n' || c == '\r' || c == '\x0b' || c == '\x0c'

/-- Python str.strip: remove leading and trailing whitespace. -/
def pyStrip (s : String) : String :=
  String.mk (((s.data.dropWhile isPySpace).reverse.dropWhile isPySpace).reverse)

/-- Worker of pySplit: the accumulator holds the current word reversed. -/
def pySplitAux : List Char → List Char → List String
  | [], acc => if acc.isEmpty then [] else [String.mk acc.reverse]
  | c :: rest, acc =>
    if isPySpace c then
      if acc.isEmpty then pySplitAux rest []
      else String.mk acc.reverse :: pySplitAux rest []
    else pySplitAux rest (c :: acc)

/-- Python str.split with no separator: split on whitespace runs, dropping
empty pieces. -/
def pySplit (s : String) : List String :=
  pySplitAux s.data []

/-- Regex word-character class backslash-w (ASCII part): letters, digits,
underscore. -/
def isWordChar (c : Char) : Bool := c.isAlphanum || c == '_'

/-- Character class `[\W_]` of the tag-cleanup pattern: a non-word
character or an underscore, i.e. anything that is not alphanumeric. -/
def tagStripClass (c : Char) : Bool := !c.isAlphanum

/-- Digit run accepted by Python int() after the first digit: digits with
single underscores between digits. -/
def pyDigitsRest : List Char → Bool
  | [] => true
  | '_' :: rest =>
    match rest with
    | c :: rest2 => c.isDigit && pyDigitsRest rest2
    | [] => false
  | c :: rest => c.isDigit && pyDigitsRest rest

/-- Digit run accepted by Python int(): nonempty, starts with a digit,
single underscores allowed between digits. -/
def pyDigitsOk : List Char → Bool
  | [] => false
  | c :: rest => c.isDigit && pyDigitsRest rest

/-- Numeric value of a digit list (underscores already removed). -/
def digitsVal (ds : List Char) : Nat :=
  ds.foldl (fun a c => a * 10 + (c.toNat - 48)) 0

/-- Python int(str): strip whitespace, optional sign, digit run with
underscores; None on anything else (the Python call raises ValueError,
which the callers in the source catch). -/
def pyInt? (s : String) : Option Int :=
  match (pyStrip s).data with
  | '+' :: rest =>
    if pyDigitsOk rest then some (Int.ofNat (digitsVal (rest.filter (fun c => !(c == '_'))))) else none
  | '-' :: rest =>
    if pyDigitsOk rest then some (-(Int.ofNat (digitsVal (rest.filter (fun c => !(c == '_')))))) else none
  | cs =>
    if pyDigitsOk cs then some (Int.ofNat (digitsVal (cs.filter (fun c => !(c == '_'))))) else none

/-- Substring test over char lists (Python `needle in hay`). -/
def listContainsSub (needle : List Char) : List Char → Bool
  | [] => needle.isEmpty
  | c :: rest => needle.isPrefixOf (c :: rest) || listContainsSub needle rest

/-- Python substring containment `needle in hay`. -/
def strContains (hay needle : String) : Bool :=
  listContainsSub needle.data hay.data

/-- Generic string membership used where Python tests `x in list`. -/
def strMem (s : String) : List String → Bool
  | [] => false
  | x :: t => (x == s) || strMem s t

/-- Boolean disjointness of two key lists. -/
def strDisjB : List String → List String → Bool
  | [], _ => true
  | x :: t, l2 => !(strMem x l2) && strDisjB t l2

/- ---------------------------------------------------------------------
Tag-cleanup regular expression.

`re.match(r"([\W_]+)?\s*(.+)", text)` in TagsParser.parse: the optional
greedy group `([\W_]+)?`, then greedy `\s*`, then the captured greedy
`(.+)` ( `.` does not match a newline).  The functions below implement
exactly the backtracking order of the Python engine on this pattern:
longest group-1 first, then shorter, then group absent; for each, longest
whitespace run first.  `reGroup2` returns group(2) of the match, or none
when the pattern does not match.
--------------------------------------------------------------------- -/

/-- Attempt `(.+)` at the current position: needs one non-newline
character, then greedily takes everything up to a newline. -/
def dotPlus? (cs : List Char) : Option (List Char) :=
  match cs with
  | [] => none
  | c :: _ => if c == '\n' then none else some (cs.takeWhile (fun x => !(x == '\n')))

/-- Attempt `\s*(.+)` with greedy backtracking on the whitespace run. -/
def wsStarDotPlus : List Char → Option (List Char)
  | [] => none
  | c :: rest =>
    if isPySpace c then
      match wsStarDotPlus rest with
      | some g => some g
      | none => dotPlus? (c :: rest)
    else dotPlus? (c :: rest)

/-- Continue group 1 (`[\W_]+`, at least one character already consumed):
greedily extend, and on failure stop the group here and run the rest of
the pattern. -/
def g1Cont : List Char → Option (List Char)
  | [] => none
  | c :: rest =>
    if tagStripClass c then
      match g1Cont rest with
      | some g => some g
      | none => wsStarDotPlus (c :: rest)
    else wsStarDotPlus (c :: rest)

/-- Group 2 of `re.match(r"([\W_]+)?\s*(.+)", cs)`: group 1 present is
preferred over absent. -/
def reGroup2 (cs : List Char) : Option (List Char) :=
  match cs with
  | [] => none
  | c :: rest =>
    if tagStripClass c then
      match g1Cont rest with
      | some g => some g
      | none => wsStarDotPlus (c :: rest)
    else wsStarDotPlus (c :: rest)

/-- Cleaned tag name: `match.group(2).strip() if match else text`
(TagsParser.parse, lines 142-143). -/
def tagName (text : String) : String :=
  match reGroup2 text.data with
  | some g => pyStrip (String.mk g)
  | none => text

/-- Tag list cleanup: collect nonempty cleaned names in order
(`if name: tags.append(name)`). -/
def cleanTags (texts : List String) : List String :=
  texts.filterMap (fun t =>
    let n := tagName t
    if n = "" then none else some n)

/- ---------------------------------------------------------------------
Release-date regular expression.

StoreInfoParser.parse line 91:
`re.search(r"\d{1,2} \w+ \d{4} – \d{2}:\d{2}:\d{2} UTC", text)`.
After the month word run only one group-1 split can succeed, because the
character after the run fails both the word class and the literal space,
so greedy matching without further backtracking is exact; the same holds
for the one-or-two digit day.  `dateSearch` returns the leftmost matched
substring. -/

/-- Match the fixed tail ` – HH:MM:SS UTC` (space, en-dash, space, then
the clock and the literal UTC) as a prefix. -/
def timeTail : List Char → Bool
  | ' ' :: '–' :: ' ' :: h1 :: h2 :: ':' :: m1 :: m2 :: ':' :: s1 :: s2 :: ' ' :: 'U' :: 'T' :: 'C' :: _ =>
    h1.isDigit && h2.isDigit && m1.isDigit && m2.isDigit && s1.isDigit && s2.isDigit
  | _ => false

/-- Match `\d{4}` followed by the fixed time tail as a prefix. -/
def yearRest : List Char → Bool
  | y1 :: y2 :: y3 :: y4 :: rest =>
    y1.isDigit && y2.isDigit && y3.isDigit && y4.isDigit && timeTail rest
  | _ => false

/-- Match `\w+ \d{4} – \d{2}:\d{2}:\d{2} UTC` as a prefix, returning the
matched length. -/
def monthRest (cs : List Char) : Option Nat :=
  if (cs.takeWhile isWordChar).isEmpty then none
  else
    match cs.drop (cs.takeWhile isWordChar).length with
    | c :: rest =>
      if c = ' ' then
        if yearRest rest then some ((cs.takeWhile isWordChar).length + 20) else none
      else none
    | [] => none

/-- Match the whole date pattern at the start of `cs`, returning the
matched length.  A two-digit day must be followed by a space; the
one-digit alternative cannot rescue it because the following character is
a digit. -/
def dateMatchAt : List Char → Option Nat
  | [] => none
  | c1 :: rest =>
    if c1.isDigit then
      match rest with
      | [] => none
      | c2 :: rest2 =>
        if c2.isDigit then
          match rest2 with
          | c3 :: rest3 => if c3 = ' ' then (monthRest rest3).map (· + 3) else none
          | [] => none
        else if c2 = ' ' then (monthRest rest2).map (· + 2)
        else none
    else none

/-- re.search: try the pattern at every position left to right, returning
the matched substring of the first success. -/
def dateSearch : List Char → Option (List Char)
  | [] => none
  | c :: rest =>
    match dateMatchAt (c :: rest) with
    | some n => some ((c :: rest).take n)
    | none => dateSearch rest

/-- Shape of a matched release date, following the words of the spec:
one-or-two digit day, word month, space, four-digit year, space en-dash
space, a 24h clock and the literal UTC. -/
def DateShape (cs : List Char) : Prop :=
  ∃ (d mon : List Char) (y1 y2 y3 y4 h1 h2 mi1 mi2 s1 s2 : Char),
    cs = d ++ ' ' :: (mon ++ ' ' :: y1 :: y2 :: y3 :: y4 ::
      ' ' :: '–' :: ' ' :: h1 :: h2 :: ':' :: mi1 :: mi2 :: ':' :: s1 :: s2 :: [' ', 'U', 'T', 'C']) ∧
    (d.length = 1 ∨ d.length = 2) ∧ d.all Char.isDigit = true ∧
    mon ≠ [] ∧ mon.all isWordChar = true ∧
    (y1.isDigit && y2.isDigit && y3.isDigit && y4.isDigit) = true ∧
    (h1.isDigit && h2.isDigit && mi1.isDigit && mi2.isDigit && s1.isDigit && s2.isDigit) = true

/- ---------------------------------------------------------------------
Data model: the parts of the document tree the extractors read, and the
Python values flowing through the record dicts.
--------------------------------------------------------------------- -/

/-- Entry of a per-currency price dict (PricesParser.parse lines 206-209). -/
structure PriceEntry where
  current_price : Option String
  lowest_recorded_price : Option String
deriving DecidableEq

/-- Python values stored in the record dicts.  `floatContent`/`intContent`
carry the raw meta content string that Python passes to float()/int(); no
claim inspects the numeric value (on garbage content the Python calls
raise, which is outside every claim, each of which assumes a well-formed
document or never reads these fields). -/
inductive Value where
  | null
  | int (n : Int)
  | str (s : String)
  | list (l : List String)
  | floatContent (s : String)
  | intContent (s : String)
  | prices (p : List (String × PriceEntry))
deriving DecidableEq

/-- One td of the primary info table: its stripped text, its text with a
space separator (used only for Release Date), the stripped texts of its
link descendants, and the presence of the three OS icon markers. -/
structure InfoCell where
  textStrip : String
  textSpaced : String
  linkTexts : List String
  hasWindowsIcon : Bool
  hasLinuxIcon : Bool
  hasAppleIcon : Bool
deriving DecidableEq

/-- Rating block `a[itemprop=aggregateRating]`: content attributes of the
two meta descendants when found. -/
structure RatingBlock where
  ratingValue : Option String
  reviewCount : Option String
deriving DecidableEq

/-- An h2/h3 heading in document order, with the item texts
(`a.btn span`) of the next sibling `div.store-categories` when that
sibling exists. -/
structure Heading where
  text : String
  nextCatItems : Option (List String)
deriving DecidableEq

/-- One td of a price-table body row: its stripped text and whether it
carries the `price-line` class. -/
structure PriceCell where
  text : String
  isPriceLine : Bool
deriving DecidableEq

/-- Query results of one document tree, one field per region the block
extractors select.  `none` models a failed select (region absent). -/
structure Doc where
  infoTable : Option (List (List InfoCell))
  ratingBlock : Option RatingBlock
  storeTags : Option (List String)
  headerTags : Option (List String)
  headings : List Heading
  priceTable : Option (List (List PriceCell))
deriving DecidableEq

/- ---------------------------------------------------------------------
Dict operations: Python dict assignment and dict.update keep the position
of an existing key and append new keys in iteration order.
--------------------------------------------------------------------- -/

/-- Python `d[k] = v`: replace in place if the key exists, else append. -/
def dictSet {α : Type} (d : List (String × α)) (k : String) (v : α) : List (String × α) :=
  if d.any (fun p => p.1 == k) then
    d.map (fun p => if p.1 = k then (k, v) else p)
  else d ++ [(k, v)]

/-- Python `d.update(new)`: assign every pair of `new` in order. -/
def dictUpdate (d new : List (String × Value)) : List (String × Value) :=
  new.foldl (fun acc kv => dictSet acc kv.1 kv.2) d

/-- First entry with the given key. -/
def lookup? {α : Type} (d : List (String × α)) (k : String) : Option (String × α) :=
  d.find? (fun p => p.1 == k)

/-- Python `d.get(k)`: None when the key is absent. -/
def pyGet (d : List (String × Value)) (k : String) : Value :=
  match lookup? d k with
  | some p => p.2
  | none => Value.null

/- ---------------------------------------------------------------------
Block extractors (SteamDBBlockParser subclasses).
--------------------------------------------------------------------- -/

/-- State of the StoreInfoParser dict: fixed key set, fields updated in
place while folding over the table rows. -/
structure StoreData where
  app_id : Option Int
  app_type : Option String
  developer : List String
  publisher : List String
  supported_systems : List String
  release_date : Option String
deriving DecidableEq

/-- Initial StoreInfoParser dict (lines 42-49). -/
def initStoreData : StoreData := ⟨none, none, [], [], [], none⟩

/-- Option Int to Python value. -/
def optIntV : Option Int → Value
  | some n => Value.int n
  | none => Value.null

/-- Option String to Python value. -/
def optStrV : Option String → Value
  | some s => Value.str s
  | none => Value.null

/-- StoreInfoParser dict rendered as the association list it is in
Python, in insertion order. -/
def StoreData.toRecord (s : StoreData) : List (String × Value) :=
  [("app_id", optIntV s.app_id),
   ("app_type", optStrV s.app_type),
   ("developer", Value.list s.developer),
   ("publisher", Value.list s.publisher),
   ("supported_systems", Value.list s.supported_systems),
   ("release_date", optStrV s.release_date)]

/-- Label dispatch of one two-cell info-table row (StoreInfoParser.parse
lines 56-94): unknown labels leave the dict unchanged. -/
def storeInfoDispatch (acc : StoreData) (labelCell valueCell : InfoCell) : StoreData :=
  match labelCell.textStrip with
  | "App ID" =>
    match pyInt? valueCell.textStrip with
    | some n => { acc with app_id := some n }
    | none => acc
  | "App Type" => { acc with app_type := some valueCell.textStrip }
  | "Developer" => { acc with developer := valueCell.linkTexts }
  | "Publisher" => { acc with publisher := valueCell.linkTexts }
  | "Supported Systems" =>
    { acc with supported_systems :=
        (if valueCell.hasWindowsIcon then ["Windows"] else []) ++
        (if valueCell.hasLinuxIcon then ["Linux"] else []) ++
        (if valueCell.hasAppleIcon then ["macOS"] else []) }
  | "Release Date" =>
    match dateSearch valueCell.textSpaced.data with
    | some m => { acc with release_date := some (String.mk m) }
    | none => acc
  | _ => acc

/-- One row of the info table (StoreInfoParser.parse lines 51-54): rows
without exactly two cells are skipped. -/
def storeInfoStep (acc : StoreData) (row : List InfoCell) : StoreData :=
  match row with
  | [labelCell, valueCell] => storeInfoDispatch acc labelCell valueCell
  | _ => acc

/-- StoreInfoParser.parse: empty dict when the `div.span8 table` select
fails, else the default-initialized dict folded over the rows. -/
def storeInfoParse (d : Doc) : List (String × Value) :=
  match d.infoTable with
  | none => []
  | some rows => (rows.foldl storeInfoStep initStoreData).toRecord

/-- RatingParser.parse: both fields default to null; each is set when the
block and the corresponding meta node exist. -/
def ratingParse (d : Doc) : List (String × Value) :=
  match d.ratingBlock with
  | none => [("rating_percent", Value.null), ("reviews_count", Value.null)]
  | some b =>
    [("rating_percent", match b.ratingValue with
       | some s => Value.floatContent s
       | none => Value.null),
     ("reviews_count", match b.reviewCount with
       | some s => Value.intContent s
       | none => Value.null)]

/-- TagsParser.parse: prefer `div.store-tags`, fall back to
`div.header-app-tags`, else an empty tag list; clean each tag link text. -/
def tagsParse (d : Doc) : List (String × Value) :=
  match (match d.storeTags with
         | some b => some b
         | none => d.headerTags) with
  | none => [("tags", Value.list [])]
  | some texts => [("tags", Value.list (cleanTags texts))]

/-- NamedCategoriesParser.parse: first h2/h3 heading whose text contains
the title, then the next sibling `div.store-categories`; the key is
emitted only when at least one item was collected. -/
def namedCategoriesParse (title result_key : String) (d : Doc) : List (String × Value) :=
  match d.headings.find? (fun hd => strContains hd.text title) with
  | none => []
  | some hd =>
    match hd.nextCatItems with
    | none => []
    | some items => if items.isEmpty then [] else [(result_key, Value.list items)]

/-- Default currency allow-list of PricesParser. -/
def default_currencies : List String := ["CIS - U.S. Dollar", "U.S. Dollar", "Euro"]

/-- Last character is a hyphen (Python `w.endswith("-")`). -/
def endsWithDash (w : String) : Bool :=
  match w.data.getLast? with
  | some c => c == '-'
  | none => false

/-- Region-qualifier strip (PricesParser.parse lines 192-193): when the
name contains a space and its first word ends with a hyphen, drop the
first word and rejoin with single spaces.  A nonempty all-whitespace name
would make Python raise IndexError; such a name cannot reach this point
because the cell text is produced by get_text with strip=True. -/
def stripQualifier (name : String) : String :=
  if name.data.contains ' ' then
    match pySplit name with
    | [] => name
    | w :: rest => if endsWithDash w then String.intercalate " " rest else name
  else name

/-- One price-table body row (lines 186-209): first `td.price-line` cell
gives the currency name; rows without one, and rows whose (possibly
stripped) name is not in the allow-list, are skipped; otherwise the second
td is the current price and the last td the lowest recorded price. -/
def priceRowStep (currencies : List String) (acc : List (String × PriceEntry)) (row : List PriceCell) : List (String × PriceEntry) :=
  match row.find? (fun c => c.isPriceLine) with
  | none => acc
  | some ctd =>
    let nm := stripQualifier ctd.text
    if strMem nm currencies then
      dictSet acc nm ⟨(row[1]?).map (fun c => c.text), (row.getLast?).map (fun c => c.text)⟩
    else acc

/-- PricesParser.parse: empty dict when `table.table-prices` is absent,
else a single `prices` key holding the per-currency dict built from the
body rows. -/
def pricesParse (currencies : List String) (d : Doc) : List (String × Value) :=
  match d.priceTable with
  | none => []
  | some rows => [("prices", Value.prices (rows.foldl (priceRowStep currencies) []))]

/-- The seven block extractor outputs in the fixed order in which
SteamDBPageParser runs them (lines 217-225). -/
def blockParses (d : Doc) : List (List (String × Value)) :=
  [storeInfoParse d,
   ratingParse d,
   tagsParse d,
   namedCategoriesParse "Categories" "categories" d,
   namedCategoriesParse "Hardware" "hardware_categories" d,
   namedCategoriesParse "Accessibility" "accessibility_categories" d,
   pricesParse default_currencies d]

/-- SteamDBPageParser.parse: fold the block extractor outputs into one
record with dict.update. -/
def extract_page (d : Doc) : List (String × Value) :=
  (blockParses d).foldl dictUpdate []

/- ---------------------------------------------------------------------
Flattener (join_list and flatten, lines 264-300).
--------------------------------------------------------------------- -/

/-- join_list: join with " | " when the value is a list, else the empty
string (also for None and for a missing key). -/
def join_list (v : Value) : String :=
  match v with
  | Value.list l => String.intercalate " | " l
  | _ => ""

/-- data.get("prices", {}) as the per-currency dict. -/
def getPrices (data : List (String × Value)) : List (String × PriceEntry) :=
  match lookup? data "prices" with
  | some (_, Value.prices p) => p
  | _ => []

/-- prices.get(cur, {}).get("current_price"). -/
def priceCurrent (p : List (String × PriceEntry)) (cur : String) : Value :=
  match p.find? (fun q => q.1 == cur) with
  | some q => optStrV q.2.current_price
  | none => Value.null

/-- prices.get(cur, {}).get("lowest_recorded_price"). -/
def priceLowest (p : List (String × PriceEntry)) (cur : String) : Value :=
  match p.find? (fun q => q.1 == cur) with
  | some q => optStrV q.2.lowest_recorded_price
  | none => Value.null

/-- flatten: the fixed flat row, in the literal key order of the source. -/
def flatten (data : List (String × Value)) : List (String × Value) :=
  let prices := getPrices data
  [("app_id", pyGet data "app_id"),
   ("app_type", pyGet data "app_type"),
   ("developer", Value.str (join_list (pyGet data "developer"))),
   ("publisher", Value.str (join_list (pyGet data "publisher"))),
   ("supported_systems", Value.str (join_list (pyGet data "supported_systems"))),
   ("release_date", pyGet data "release_date"),
   ("rating_percent", pyGet data "rating_percent"),
   ("reviews_count", pyGet data "reviews_count"),
   ("tags", Value.str (join_list (pyGet data "tags"))),
   ("categories", Value.str (join_list (pyGet data "categories"))),
   ("hardware_categories", Value.str (join_list (pyGet data "hardware_categories"))),
   ("accessibility_categories", Value.str (join_list (pyGet data "accessibility_categories"))),
   ("price_usd_current", priceCurrent prices "U.S. Dollar"),
   ("price_usd_lowest", priceLowest prices "U.S. Dollar"),
   ("price_eur_current", priceCurrent prices "Euro"),
   ("price_eur_lowest", priceLowest prices "Euro"),
   ("price_cis_current", priceCurrent prices "CIS - U.S. Dollar"),
   ("price_cis_lowest", priceLowest prices "CIS - U.S. Dollar")]

/- ---------------------------------------------------------------------
load_app_ids (lines 238-260).  The csv.DictReader input is modelled by
the header field names and the data rows; blank rows are skipped by the
reader.  A row lookup yields: missing when the identifier column is not
in the header (KeyError, caught), noneVal when the row is shorter than
the header (restval None, so int(None) raises an uncaught TypeError),
or the cell string.  With duplicated header names the value of the last
occurrence wins, as in DictReader.
--------------------------------------------------------------------- -/

/-- Result of one DictReader row lookup of the identifier column. -/
inductive CsvField where
  | missing
  | noneVal
  | strVal (s : String)
deriving DecidableEq

/-- Index of the last occurrence of `k`, starting the count at `i`. -/
def lastIdxOfAux (k : String) : List String → Nat → Option Nat
  | [], _ => none
  | x :: t, i =>
    match lastIdxOfAux k t (i + 1) with
    | some j => some j
    | none => if x == k then some i else none

/-- row["app_id"] under DictReader semantics. -/
def dictReaderGet (fieldnames record : List String) : CsvField :=
  match lastIdxOfAux "app_id" fieldnames 0 with
  | none => CsvField.missing
  | some i =>
    match record[i]? with
    | some s => CsvField.strVal s
    | none => CsvField.noneVal

/-- Outcome of load_app_ids: the returned list, or one of the two raised
exceptions (TypeError from int(None); ValueError when start_from is not
found). -/
inductive LoadResult where
  | ok (ids : List Int)
  | typeError
  | startFromNotFound
deriving DecidableEq

/-- Reading pass of load_app_ids (lines 244-250): KeyError and ValueError
are caught and the row skipped; int(None) raises TypeError. -/
def parse_app_ids (fieldnames : List String) : List (List String) → LoadResult
  | [] => LoadResult.ok []
  | r :: rs =>
    match dictReaderGet fieldnames r with
    | CsvField.noneVal => LoadResult.typeError
    | CsvField.missing => parse_app_ids fieldnames rs
    | CsvField.strVal s =>
      match pyInt? s with
      | some n =>
        match parse_app_ids fieldnames rs with
        | LoadResult.ok ids => LoadResult.ok (n :: ids)
        | e => e
      | none => parse_app_ids fieldnames rs

/-- Python list.index: position of the first occurrence. -/
def pyIndex (x : Int) : List Int → Nat
  | [] => 0
  | y :: t => if y = x then 0 else pyIndex x t + 1

/-- Integer membership as Python `x in list`. -/
def intMem (x : Int) : List Int → Bool
  | [] => false
  | y :: t => (y == x) || intMem x t

/-- load_app_ids: read the identifiers, then either return them all
(start_from None), raise when start_from is absent, or return the suffix
from the first occurrence of start_from. -/
def load_app_ids (fieldnames : List String) (records : List (List String)) (start_from : Option Int) : LoadResult :=
  match parse_app_ids fieldnames (records.filter (fun r => !r.isEmpty)) with
  | LoadResult.ok app_ids =>
    (match start_from with
     | none => LoadResult.ok app_ids
     | some x =>
       if intMem x app_ids then LoadResult.ok (app_ids.drop (pyIndex x app_ids))
       else LoadResult.startFromNotFound)
  | e => e

/- ---------------------------------------------------------------------
Concrete documents used by counterexamples and witnesses.
--------------------------------------------------------------------- -/

/-- A well-formed document in which every region is absent. -/
def docEmpty : Doc := ⟨none, none, none, none, [], none⟩

/-- A document whose only region is a price table with the CIS dollar row
of the spec example. -/
def docPriceCis : Doc :=
  { docEmpty with priceTable := some [[⟨"CIS - U.S. Dollar", true⟩, ⟨"$9.99", false⟩, ⟨"$7.49", false⟩]] }

/-- A document whose only region is a price table with a single row for a
currency outside the allow-list. -/
def docPriceArg : Doc :=
  { docEmpty with priceTable := some [[⟨"Argentine Peso", true⟩, ⟨"$5.00", false⟩, ⟨"$2.00", false⟩]] }

/-- A document with an info table carrying an App ID row. -/
def docWithAppId : Doc :=
  { docEmpty with infoTable := some [[⟨"App ID", "App ID", [], false, false, false⟩,
                                      ⟨"570", "570", [], false, false, false⟩]] }

/-- Fixed key set of the StoreInfoParser output. -/
def storeInfoKeys : List String :=
  ["app_id", "app_type", "developer", "publisher", "supported_systems", "release_date"]

/-- Fixed key set of the flat row, in order. -/
def flatKeys : List String :=
  ["app_id", "app_type", "developer", "publisher", "supported_systems", "release_date",
   "rating_percent", "reviews_count",
   "tags", "categories", "hardware_categories", "accessibility_categories",
   "price_usd_current", "price_usd_lowest",
   "price_eur_current", "price_eur_lowest",
   "price_cis_current", "price_cis_lowest"]

/-- Value is an integer or null (shape of app_id). -/
def isIntOrNull : Value → Bool
  | Value.int _ => true
  | Value.null => true
  | _ => false

/- ---------------------------------------------------------------------
Generic helper lemmas.
--------------------------------------------------------------------- -/

theorem strMem_iff (s : String) (l : List String) : strMem s l = true ↔ s ∈ l := by
  induction l with
  | nil => simp [strMem]
  | cons x t ih =>
    simp only [strMem, Bool.or_eq_true, beq_iff_eq, ih, List.mem_cons]
    constructor
    · rintro (rfl | h)
      · exact Or.inl rfl
      · exact Or.inr h
    · rintro (rfl | h)
      · exact Or.inl rfl
      · exact Or.inr h

theorem intMem_iff (x : Int) (l : List Int) : intMem x l = true ↔ x ∈ l := by
  induction l with
  | nil => simp [intMem]
  | cons y t ih =>
    simp only [intMem, Bool.or_eq_true, beq_iff_eq, ih, List.mem_cons]
    constructor
    · rintro (rfl | h)
      · exact Or.inl rfl
      · exact Or.inr h
    · rintro (rfl | h)
      · exact Or.inl rfl
      · exact Or.inr h

theorem strDisjB_spec (l1 l2 : List String) (h : strDisjB l1 l2 = true) :
    ∀ s, s ∈ l1 → s ∉ l2 := by
  induction l1 with
  | nil => intro s hs; simp at hs
  | cons x t ih =>
    intro s hs hs2
    simp only [strDisjB, Bool.and_eq_true, Bool.not_eq_true'] at h
    rcases List.mem_cons.mp hs with rfl | hs'
    · exact absurd ((strMem_iff s l2).mpr hs2) (by simp [h.1])
    · exact ih h.2 s hs' hs2

theorem pairDisj {A B LA LB : List String}
    (hA : A = [] ∨ A = LA) (hB : B = [] ∨ B = LB)
    (h : strDisjB LA LB = true) : ∀ s, s ∈ A → s ∉ B := by
  intro s hs hsB
  rcases hA with rfl | rfl
  · simp at hs
  rcases hB with rfl | rfl
  · simp at hsB
  exact strDisjB_spec _ _ h s hs hsB

theorem not_mem_of_cases {A L : List String} {k : String}
    (h : A = [] ∨ A = L) (hk : k ∉ L) : k ∉ A := by
  rcases h with rfl | rfl
  · simp
  · exact hk

theorem keys_nodup_of_cases {A L : List String} (h : A = [] ∨ A = L) (hL : L.Nodup) :
    A.Nodup := by
  rcases h with rfl | rfl
  · exact List.nodup_nil
  · exact hL

/- ---------------------------------------------------------------------
Dict lemmas.
--------------------------------------------------------------------- -/

theorem keys_replace {α : Type} (d : List (String × α)) (k : String) (v : α) :
    (d.map (fun p => if p.1 = k then (k, v) else p)).map Prod.fst = d.map Prod.fst := by
  induction d with
  | nil => rfl
  | cons p t ih =>
    by_cases h : p.1 = k
    · simp [h, ih]
    · simp [h, ih]

theorem mem_keys_dictSet {α : Type} (d : List (String × α)) (k k' : String) (v : α) :
    k' ∈ (dictSet d k v).map Prod.fst ↔ k' ∈ d.map Prod.fst ∨ k' = k := by
  unfold dictSet
  by_cases h : d.any (fun p => p.1 == k) = true
  · rw [if_pos h, keys_replace]
    constructor
    · exact Or.inl
    · rintro (h' | rfl)
      · exact h'
      · obtain ⟨p, hp, hpk⟩ := List.any_eq_true.mp h
        have hk : p.1 = k' := by simpa using hpk
        exact hk ▸ List.mem_map.mpr ⟨p, hp, rfl⟩
  · rw [if_neg h]
    simp [List.mem_append]

theorem lookup?_eq_none_of_not_mem {α : Type} {d : List (String × α)} {k : String}
    (h : k ∉ d.map Prod.fst) : lookup? d k = none := by
  induction d with
  | nil => rfl
  | cons p t ih =>
    simp only [List.map_cons, List.mem_cons, not_or] at h
    have hb : (p.1 == k) = false := by
      simp only [beq_eq_false_iff_ne, ne_eq]
      exact fun e => h.1 e.symm
    unfold lookup?
    rw [List.find?_cons_of_neg _ (by simp [hb])]
    exact ih h.2

theorem lookup?_append {α : Type} (d e : List (String × α)) (k : String) :
    lookup? (d ++ e) k = (lookup? d k).orElse (fun _ => lookup? e k) := by
  induction d with
  | nil => rfl
  | cons p t ih =>
    cases hb : (p.1 == k) with
    | true =>
      simp only [List.cons_append, lookup?]
      rw [List.find?_cons_of_pos _ (by simp [hb]), List.find?_cons_of_pos _ (by simp [hb])]
      rfl
    | false =>
      simp only [List.cons_append, lookup?]
      rw [List.find?_cons_of_neg _ (by simp [hb]), List.find?_cons_of_neg _ (by simp [hb])]
      exact ih

theorem lookup?_append_not_mem {α : Type} {d e : List (String × α)} {k : String}
    (h : k ∉ d.map Prod.fst) : lookup? (d ++ e) k = lookup? e k := by
  rw [lookup?_append, lookup?_eq_none_of_not_mem h]
  rfl

theorem lookup?_append_some {α : Type} {d e : List (String × α)} {k : String} {p : String × α}
    (h : lookup? d k = some p) : lookup? (d ++ e) k = some p := by
  rw [lookup?_append, h]
  rfl

theorem dictSet_append_new {α : Type} (d : List (String × α)) (k : String) (v : α)
    (h : k ∉ d.map Prod.fst) : dictSet d k v = d ++ [(k, v)] := by
  unfold dictSet
  rw [if_neg ?_]
  intro hany
  obtain ⟨p, hp, hpk⟩ := List.any_eq_true.mp hany
  exact h (List.mem_map.mpr ⟨p, hp, by simpa using hpk⟩)

theorem dictUpdate_eq_append (d new : List (String × Value))
    (hnd : (new.map Prod.fst).Nodup)
    (hdisj : ∀ a ∈ new.map Prod.fst, a ∉ d.map Prod.fst) :
    dictUpdate d new = d ++ new := by
  induction new generalizing d with
  | nil => simp [dictUpdate]
  | cons p t ih =>
    simp only [List.map_cons, List.nodup_cons] at hnd
    have h1 : p.1 ∉ d.map Prod.fst := hdisj p.1 (by simp)
    show dictUpdate (dictSet d p.1 p.2) t = d ++ p :: t
    rw [dictSet_append_new d p.1 p.2 h1]
    have hstep : ∀ a ∈ t.map Prod.fst, a ∉ (d ++ [(p.1, p.2)]).map Prod.fst := by
      intro a ha
      simp only [List.map_append, List.mem_append, List.map_cons, List.map_nil,
        List.mem_singleton, not_or]
      refine ⟨hdisj a (by simp [ha]), ?_⟩
      intro he
      exact hnd.1 (he ▸ ha)
    calc dictUpdate (d ++ [(p.1, p.2)]) t
        = (d ++ [(p.1, p.2)]) ++ t := ih (d ++ [(p.1, p.2)]) hnd.2 hstep
      _ = d ++ p :: t := by simp

theorem foldl_dictUpdate_eq_append (ls : List (List (String × Value))) :
    ∀ (acc : List (String × Value)),
    (∀ L ∈ ls, (L.map Prod.fst).Nodup) →
    List.Pairwise (fun A B => ∀ s, s ∈ A → s ∉ B) (ls.map (fun L => L.map Prod.fst)) →
    (∀ L ∈ ls, ∀ a ∈ L.map Prod.fst, a ∉ acc.map Prod.fst) →
    ls.foldl dictUpdate acc = acc ++ ls.flatten := by
  induction ls with
  | nil => intro acc _ _ _; simp
  | cons L rest ih =>
    intro acc hn hp hacc
    simp only [List.map_cons, List.pairwise_cons] at hp
    rw [List.foldl_cons,
        dictUpdate_eq_append acc L (hn L (by simp)) (fun a ha => hacc L (by simp) a ha)]
    have hstep : ∀ L' ∈ rest, ∀ a ∈ L'.map Prod.fst, a ∉ (acc ++ L).map Prod.fst := by
      intro L' hL' a ha
      simp only [List.map_append, List.mem_append, not_or]
      refine ⟨hacc L' (by simp [hL']) a ha, ?_⟩
      intro hM
      exact hp.1 (L'.map Prod.fst) (List.mem_map.mpr ⟨L', hL', rfl⟩) a hM ha
    calc rest.foldl dictUpdate (acc ++ L)
        = (acc ++ L) ++ rest.flatten := ih (acc ++ L) (fun L' h => hn L' (by simp [h])) hp.2 hstep
      _ = acc ++ (L :: rest).flatten := by simp

/- ---------------------------------------------------------------------
Key sets of the seven block extractors.
--------------------------------------------------------------------- -/

theorem storeInfoParse_keys (d : Doc) :
    (storeInfoParse d).map Prod.fst = [] ∨ (storeInfoParse d).map Prod.fst = storeInfoKeys := by
  unfold storeInfoParse
  cases d.infoTable with
  | none => exact Or.inl rfl
  | some rows => exact Or.inr rfl

theorem ratingParse_keys (d : Doc) :
    (ratingParse d).map Prod.fst = [] ∨
    (ratingParse d).map Prod.fst = ["rating_percent", "reviews_count"] := by
  unfold ratingParse
  cases d.ratingBlock with
  | none => exact Or.inr rfl
  | some b => exact Or.inr rfl

theorem tagsParse_keys (d : Doc) :
    (tagsParse d).map Prod.fst = [] ∨ (tagsParse d).map Prod.fst = ["tags"] := by
  unfold tagsParse
  cases d.storeTags with
  | some b => exact Or.inr rfl
  | none =>
    cases d.headerTags with
    | some b => exact Or.inr rfl
    | none => exact Or.inr rfl

theorem namedCategoriesParse_keys (title key : String) (d : Doc) :
    (namedCategoriesParse title key d).map Prod.fst = [] ∨
    (namedCategoriesParse title key d).map Prod.fst = [key] := by
  unfold namedCategoriesParse
  cases d.headings.find? (fun hd => strContains hd.text title) with
  | none => exact Or.inl rfl
  | some hd =>
    dsimp only
    cases hd.nextCatItems with
    | none => exact Or.inl rfl
    | some items =>
      dsimp only
      by_cases h : items.isEmpty = true
      · rw [if_pos h]; exact Or.inl rfl
      · rw [if_neg h]; exact Or.inr rfl

theorem pricesParse_keys (currencies : List String) (d : Doc) :
    (pricesParse currencies d).map Prod.fst = [] ∨
    (pricesParse currencies d).map Prod.fst = ["prices"] := by
  unfold pricesParse
  cases d.priceTable with
  | none => exact Or.inl rfl
  | some rows => exact Or.inr rfl

theorem blockParses_keys_pairwise (d : Doc) :
    List.Pairwise (fun A B => ∀ s, s ∈ A → s ∉ B)
      ((blockParses d).map (fun L => L.map Prod.fst)) := by
  have h1 := storeInfoParse_keys d
  have h2 := ratingParse_keys d
  have h3 := tagsParse_keys d
  have h4 := namedCategoriesParse_keys "Categories" "categories" d
  have h5 := namedCategoriesParse_keys "Hardware" "hardware_categories" d
  have h6 := namedCategoriesParse_keys "Accessibility" "accessibility_categories" d
  have h7 := pricesParse_keys default_currencies d
  simp only [blockParses, List.map_cons, List.map_nil]
  refine List.Pairwise.cons ?_ (List.Pairwise.cons ?_ (List.Pairwise.cons ?_
    (List.Pairwise.cons ?_ (List.Pairwise.cons ?_ (List.Pairwise.cons ?_
    (List.Pairwise.cons ?_ List.Pairwise.nil))))))
  · intro B hB
    simp only [List.mem_cons, List.not_mem_nil, or_false] at hB
    rcases hB with rfl | rfl | rfl | rfl | rfl | rfl
    · exact pairDisj h1 h2 (by decide)
    · exact pairDisj h1 h3 (by decide)
    · exact pairDisj h1 h4 (by decide)
    · exact pairDisj h1 h5 (by decide)
    · exact pairDisj h1 h6 (by decide)
    · exact pairDisj h1 h7 (by decide)
  · intro B hB
    simp only [List.mem_cons, List.not_mem_nil, or_false] at hB
    rcases hB with rfl | rfl | rfl | rfl | rfl
    · exact pairDisj h2 h3 (by decide)
    · exact pairDisj h2 h4 (by decide)
    · exact pairDisj h2 h5 (by decide)
    · exact pairDisj h2 h6 (by decide)
    · exact pairDisj h2 h7 (by decide)
  · intro B hB
    simp only [List.mem_cons, List.not_mem_nil, or_false] at hB
    rcases hB with rfl | rfl | rfl | rfl
    · exact pairDisj h3 h4 (by decide)
    · exact pairDisj h3 h5 (by decide)
    · exact pairDisj h3 h6 (by decide)
    · exact pairDisj h3 h7 (by decide)
  · intro B hB
    simp only [List.mem_cons, List.not_mem_nil, or_false] at hB
    rcases hB with rfl | rfl | rfl
    · exact pairDisj h4 h5 (by decide)
    · exact pairDisj h4 h6 (by decide)
    · exact pairDisj h4 h7 (by decide)
  · intro B hB
    simp only [List.mem_cons, List.not_mem_nil, or_false] at hB
    rcases hB with rfl | rfl
    · exact pairDisj h5 h6 (by decide)
    · exact pairDisj h5 h7 (by decide)
  · intro B hB
    simp only [List.mem_cons, List.not_mem_nil, or_false] at hB
    rcases hB with rfl
    · exact pairDisj h6 h7 (by decide)
  · intro B hB
    simp at hB

theorem extract_page_eq_join (d : Doc) : extract_page d = (blockParses d).flatten := by
  have hn : ∀ L ∈ blockParses d, (L.map Prod.fst).Nodup := by
    intro L hL
    simp only [blockParses, List.mem_cons, List.not_mem_nil, or_false] at hL
    rcases hL with rfl | rfl | rfl | rfl | rfl | rfl | rfl
    · exact keys_nodup_of_cases (storeInfoParse_keys d) (by decide)
    · exact keys_nodup_of_cases (ratingParse_keys d) (by decide)
    · exact keys_nodup_of_cases (tagsParse_keys d) (by decide)
    · exact keys_nodup_of_cases (namedCategoriesParse_keys _ _ d) (by decide)
    · exact keys_nodup_of_cases (namedCategoriesParse_keys _ _ d) (by decide)
    · exact keys_nodup_of_cases (namedCategoriesParse_keys _ _ d) (by decide)
    · exact keys_nodup_of_cases (pricesParse_keys _ d) (by decide)
  have hacc : ∀ L ∈ blockParses d, ∀ a ∈ L.map Prod.fst,
      a ∉ (([] : List (String × Value)).map Prod.fst) := by
    intro L _ a _ ha
    simp at ha
  have h := foldl_dictUpdate_eq_append (blockParses d) []
    hn (blockParses_keys_pairwise d) hacc
  simpa [extract_page] using h

theorem mem_keys_extract_page (d : Doc) (k : String) :
    k ∈ (extract_page d).map Prod.fst ↔
      k ∈ (storeInfoParse d).map Prod.fst ∨
      k ∈ (ratingParse d).map Prod.fst ∨
      k ∈ (tagsParse d).map Prod.fst ∨
      k ∈ (namedCategoriesParse "Categories" "categories" d).map Prod.fst ∨
      k ∈ (namedCategoriesParse "Hardware" "hardware_categories" d).map Prod.fst ∨
      k ∈ (namedCategoriesParse "Accessibility" "accessibility_categories" d).map Prod.fst ∨
      k ∈ (pricesParse default_currencies d).map Prod.fst := by
  rw [extract_page_eq_join]
  simp [blockParses, List.mem_append]

theorem flatten_lookup_hardware (data : List (String × Value)) :
    lookup? (flatten data) "hardware_categories" =
      some ("hardware_categories", Value.str (join_list (pyGet data "hardware_categories"))) := rfl

theorem flatten_lookup_tags (data : List (String × Value)) :
    lookup? (flatten data) "tags" =
      some ("tags", Value.str (join_list (pyGet data "tags"))) := rfl

theorem lookup?_toRecord_app_id (s : StoreData) :
    lookup? s.toRecord "app_id" = some ("app_id", optIntV s.app_id) := rfl

theorem lookup?_extract_page (d : Doc) (k : String) :
    lookup? (extract_page d) k =
      lookup? (storeInfoParse d ++ (ratingParse d ++ (tagsParse d ++
        (namedCategoriesParse "Categories" "categories" d ++
        (namedCategoriesParse "Hardware" "hardware_categories" d ++
        (namedCategoriesParse "Accessibility" "accessibility_categories" d ++
        (pricesParse default_currencies d ++ []))))))) k := by
  rw [extract_page_eq_join]
  rfl

theorem drop_pyIndex_head (x : Int) (l : List Int) (h : x ∈ l) :
    (l.drop (pyIndex x l)).head? = some x := by
  induction l with
  | nil => simp at h
  | cons y t ih =>
    by_cases hy : y = x
    · simp [pyIndex, hy]
    · have hx : x ∈ t := by
        rcases List.mem_cons.mp h with rfl | ht
        · exact absurd rfl hy
        · exact ht
      simp [pyIndex, hy, ih hx]

/- ---------------------------------------------------------------------
Claims.
--------------------------------------------------------------------- -/

/-- Claim C1, counterexample: for the well-formed document with every
region absent (so the Hardware section is absent), flatten renders the
empty string, not null, in the hardware_categories column — the claim
asserts null there. -/
theorem C1_counterexample :
    "hardware_categories" ∉ (extract_page docEmpty).map Prod.fst ∧
    lookup? (flatten (extract_page docEmpty)) "hardware_categories" =
      some ("hardware_categories", Value.str "") ∧
    Value.str "" ≠ Value.null := by
  refine ⟨by decide, by decide, by decide⟩

/-- Claim C1, amended: for every document without a heading whose text
contains "Hardware", the combined record has no hardware_categories key,
and flatten renders the empty string (not null) in that column. -/
theorem C1_hardware_absent (d : Doc)
    (h : ∀ hd ∈ d.headings, strContains hd.text "Hardware" = false) :
    "hardware_categories" ∉ (extract_page d).map Prod.fst ∧
    lookup? (flatten (extract_page d)) "hardware_categories" =
      some ("hardware_categories", Value.str "") := by
  have hfind : d.headings.find? (fun hd => strContains hd.text "Hardware") = none := by
    rw [List.find?_eq_none]
    intro x hx
    simp [h x hx]
  have hhw : namedCategoriesParse "Hardware" "hardware_categories" d = [] := by
    unfold namedCategoriesParse
    rw [hfind]
  have hmem : "hardware_categories" ∉ (extract_page d).map Prod.fst := by
    rw [mem_keys_extract_page]
    rintro (hc | hc | hc | hc | hc | hc | hc)
    · exact not_mem_of_cases (storeInfoParse_keys d) (by decide) hc
    · exact not_mem_of_cases (ratingParse_keys d) (by decide) hc
    · exact not_mem_of_cases (tagsParse_keys d) (by decide) hc
    · exact not_mem_of_cases (namedCategoriesParse_keys _ _ d) (by decide) hc
    · rw [hhw] at hc
      simp at hc
    · exact not_mem_of_cases (namedCategoriesParse_keys _ _ d) (by decide) hc
    · exact not_mem_of_cases (pricesParse_keys _ d) (by decide) hc
  refine ⟨hmem, ?_⟩
  rw [flatten_lookup_hardware]
  have hnull : pyGet (extract_page d) "hardware_categories" = Value.null := by
    unfold pyGet
    rw [lookup?_eq_none_of_not_mem hmem]
  rw [hnull]
  rfl

/-- Claim C1, witness of the amended theorem at the concrete document. -/
theorem C1_witness :
    "hardware_categories" ∉ (extract_page docEmpty).map Prod.fst ∧
    lookup? (flatten (extract_page docEmpty)) "hardware_categories" =
      some ("hardware_categories", Value.str "") :=
  C1_hardware_absent docEmpty (fun hd h => absurd h (List.not_mem_nil hd))

/-- Claim C2, counterexample: the document whose info table is absent has
no app_id key in its combined record, while the claim asserts the key is
always present. -/
theorem C2_counterexample :
    "app_id" ∉ (extract_page docEmpty).map Prod.fst := by
  decide

/-- Claim C2, amended: the combined record contains the app_id key
exactly when the primary info table region is present, and then its value
is an integer or null. -/
theorem C2_app_id_presence (d : Doc) :
    ("app_id" ∈ (extract_page d).map Prod.fst ↔ d.infoTable.isSome = true) ∧
    (∀ rows, d.infoTable = some rows →
      isIntOrNull (pyGet (extract_page d) "app_id") = true) := by
  constructor
  · rw [mem_keys_extract_page]
    constructor
    · rintro (hc | hc | hc | hc | hc | hc | hc)
      · cases ht : d.infoTable with
        | none =>
          unfold storeInfoParse at hc
          rw [ht] at hc
          simp at hc
        | some rows => simp [ht]
      · exact absurd hc (not_mem_of_cases (ratingParse_keys d) (by decide))
      · exact absurd hc (not_mem_of_cases (tagsParse_keys d) (by decide))
      · exact absurd hc (not_mem_of_cases (namedCategoriesParse_keys _ _ d) (by decide))
      · exact absurd hc (not_mem_of_cases (namedCategoriesParse_keys _ _ d) (by decide))
      · exact absurd hc (not_mem_of_cases (namedCategoriesParse_keys _ _ d) (by decide))
      · exact absurd hc (not_mem_of_cases (pricesParse_keys _ d) (by decide))
    · intro hsome
      cases ht : d.infoTable with
      | none =>
        rw [ht] at hsome
        simp at hsome
      | some rows =>
        refine Or.inl ?_
        unfold storeInfoParse
        rw [ht]
        have hk : ((rows.foldl storeInfoStep initStoreData).toRecord).map Prod.fst
            = storeInfoKeys := rfl
        rw [hk]
        decide
  · intro rows ht
    have hs : storeInfoParse d = (rows.foldl storeInfoStep initStoreData).toRecord := by
      unfold storeInfoParse
      rw [ht]
    have hv : pyGet (extract_page d) "app_id" =
        optIntV (rows.foldl storeInfoStep initStoreData).app_id := by
      unfold pyGet
      rw [lookup?_extract_page, hs]
      rw [lookup?_append_some (lookup?_toRecord_app_id _)]
    rw [hv]
    cases (rows.foldl storeInfoStep initStoreData).app_id with
    | none => rfl
    | some n => rfl

/-- Claim C2, witness of the amended theorem at a document with an info
table carrying App ID 570. -/
theorem C2_witness :
    ("app_id" ∈ (extract_page docWithAppId).map Prod.fst) ∧
    isIntOrNull (pyGet (extract_page docWithAppId) "app_id") = true := by
  refine ⟨(C2_app_id_presence docWithAppId).1.mpr rfl,
    (C2_app_id_presence docWithAppId).2 _ rfl⟩

/-- Claim C3, counterexample: the flat row has the 18 enumerated columns,
not 19 as the claim counts them. -/
theorem C3_counterexample :
    (flatten (extract_page docEmpty)).map Prod.fst = flatKeys ∧
    ((flatten (extract_page docEmpty)).map Prod.fst).length = 18 ∧
    ¬((flatten (extract_page docEmpty)).map Prod.fst).length = 19 := by
  refine ⟨rfl, rfl, by decide⟩

/-- Claim C3, amended: for every record, flatten returns exactly the 18
enumerated columns, in that order. -/
theorem C3_flat_row_schema (data : List (String × Value)) :
    (flatten data).map Prod.fst = flatKeys := rfl

/-- Claim C4: when both tag regions are absent, the combined record maps
tags to the empty list, and flatten renders the empty string (a string,
never null) in the tags column. -/
theorem C4_tags_empty (d : Doc) (h1 : d.storeTags = none) (h2 : d.headerTags = none) :
    lookup? (extract_page d) "tags" = some ("tags", Value.list []) ∧
    lookup? (flatten (extract_page d)) "tags" = some ("tags", Value.str "") := by
  have htags : tagsParse d = [("tags", Value.list [])] := by
    unfold tagsParse
    rw [h1, h2]
  have hl : lookup? (extract_page d) "tags" = some ("tags", Value.list []) := by
    rw [lookup?_extract_page]
    rw [lookup?_append_not_mem (not_mem_of_cases (storeInfoParse_keys d) (by decide))]
    rw [lookup?_append_not_mem (not_mem_of_cases (ratingParse_keys d) (by decide))]
    rw [htags]
    exact lookup?_append_some rfl
  refine ⟨hl, ?_⟩
  rw [flatten_lookup_tags]
  have hg : pyGet (extract_page d) "tags" = Value.list [] := by
    unfold pyGet
    rw [hl]
  rw [hg]
  rfl

/-- Claim C4, witness at the concrete document with every region absent. -/
theorem C4_witness :
    lookup? (extract_page docEmpty) "tags" = some ("tags", Value.list []) ∧
    lookup? (flatten (extract_page docEmpty)) "tags" = some ("tags", Value.str "") :=
  C4_tags_empty docEmpty rfl rfl

/-- Claim C5: a price row whose (conditionally stripped) currency name is
in the default allow-list contributes the entry built from the second and
last cells, keyed by that name; a row whose name is not in the allow-list
contributes nothing; the CIS dollar example row yields exactly the entry
of the spec, and the Argentine Peso row yields an empty prices dict. -/
theorem C5_price_rows :
    (∀ (acc : List (String × PriceEntry)) (row : List PriceCell) (ctd : PriceCell),
        row.find? (fun c => c.isPriceLine) = some ctd →
        ((strMem (stripQualifier ctd.text) default_currencies = true →
            priceRowStep default_currencies acc row =
              dictSet acc (stripQualifier ctd.text)
                { current_price := (row[1]?).map (fun c => c.text),
                  lowest_recorded_price := (row.getLast?).map (fun c => c.text) }) ∧
         (pyStrip ctd.text = ctd.text →
            strMem (stripQualifier ctd.text) default_currencies = false →
            priceRowStep default_currencies acc row = acc))) ∧
    stripQualifier "CIS - U.S. Dollar" = "CIS - U.S. Dollar" ∧
    pricesParse default_currencies docPriceCis =
      [("prices", Value.prices [("CIS - U.S. Dollar",
        { current_price := some "$9.99", lowest_recorded_price := some "$7.49" })])] ∧
    pricesParse default_currencies docPriceArg = [("prices", Value.prices [])] := by
  refine ⟨?_, by decide, by decide, by decide⟩
  intro acc row ctd hfind
  constructor
  · intro hmem
    unfold priceRowStep
    rw [hfind]
    dsimp only
    rw [if_pos hmem]
  · intro _ hmem
    unfold priceRowStep
    rw [hfind]
    dsimp only
    rw [if_neg (by simp [hmem])]

/-- Claim C5, witness: the allow-listed branch of the theorem applied to
the CIS dollar row of the spec example. -/
theorem C5_witness :
    priceRowStep default_currencies []
      [⟨"CIS - U.S. Dollar", true⟩, ⟨"$9.99", false⟩, ⟨"$7.49", false⟩] =
      [("CIS - U.S. Dollar",
        { current_price := some "$9.99", lowest_recorded_price := some "$7.49" })] := by
  have h := (C5_price_rows.1 [] [⟨"CIS - U.S. Dollar", true⟩, ⟨"$9.99", false⟩, ⟨"$7.49", false⟩]
      ⟨"CIS - U.S. Dollar", true⟩ (by decide)).1 (by decide)
  exact h.trans (by decide)

/-- Claim C6: with start_from present among the loaded identifiers the
call returns the suffix from its first occurrence (for three identifiers
and the second, the last two); start_from absent raises; start_from None
returns the full list. -/
theorem C6_load_identifiers :
    (∀ (f : List String) (rs : List (List String)) (ids : List Int),
        parse_app_ids f (rs.filter (fun r => !r.isEmpty)) = LoadResult.ok ids →
        (load_app_ids f rs none = LoadResult.ok ids) ∧
        (∀ x, x ∈ ids →
            load_app_ids f rs (some x) = LoadResult.ok (ids.drop (pyIndex x ids)) ∧
            (ids.drop (pyIndex x ids)).head? = some x) ∧
        (∀ x, x ∉ ids → load_app_ids f rs (some x) = LoadResult.startFromNotFound)) ∧
    load_app_ids ["app_id"] [["10"], ["20"], ["30"]] (some 20) = LoadResult.ok [20, 30] ∧
    load_app_ids ["app_id"] [["10"], ["20"], ["30"]] (some 99) = LoadResult.startFromNotFound := by
  refine ⟨?_, by decide, by decide⟩
  intro f rs ids hp
  unfold load_app_ids
  rw [hp]
  refine ⟨rfl, ?_, ?_⟩
  · intro x hx
    refine ⟨?_, drop_pyIndex_head x ids hx⟩
    show (if intMem x ids = true then LoadResult.ok (ids.drop (pyIndex x ids))
          else LoadResult.startFromNotFound) = LoadResult.ok (ids.drop (pyIndex x ids))
    rw [if_pos ((intMem_iff x ids).mpr hx)]
  · intro x hx
    show (if intMem x ids = true then LoadResult.ok (ids.drop (pyIndex x ids))
          else LoadResult.startFromNotFound) = LoadResult.startFromNotFound
    rw [if_neg (fun hc => hx ((intMem_iff x ids).mp hc))]

/-- Claim C6, witness: the theorem applied to the three-identifier
example, returning all three for None and the suffix from the third. -/
theorem C6_witness :
    load_app_ids ["app_id"] [["10"], ["20"], ["30"]] none = LoadResult.ok [10, 20, 30] ∧
    load_app_ids ["app_id"] [["10"], ["20"], ["30"]] (some 30) = LoadResult.ok [30] := by
  have h := C6_load_identifiers.1 ["app_id"] [["10"], ["20"], ["30"]] [10, 20, 30] (by decide)
  exact ⟨h.1, ((h.2.1 30 (by decide)).1).trans (by decide)⟩

/-- Claim C9: for every document the key sets of the seven block
extractor outputs are pairwise disjoint, and the fold-by-union merge of
extract_page equals their plain concatenation, so no earlier key is ever
overwritten. -/
theorem C9_disjoint_merge (d : Doc) :
    List.Pairwise (fun A B => ∀ s, s ∈ A → s ∉ B)
      ((blockParses d).map (fun L => L.map Prod.fst)) ∧
    extract_page d = (blockParses d).flatten :=
  ⟨blockParses_keys_pairwise d, extract_page_eq_join d⟩

theorem parse_app_ids_eq_filterMap (f : List String) :
    ∀ l : List (List String), (∀ r ∈ l, dictReaderGet f r ≠ CsvField.noneVal) →
      parse_app_ids f l = LoadResult.ok (l.filterMap (fun r =>
        match dictReaderGet f r with
        | CsvField.strVal s => pyInt? s
        | _ => none)) := by
  intro l
  induction l with
  | nil => intro _; rfl
  | cons r t ih =>
    intro hl
    have hr := hl r (by simp)
    have ht : ∀ r' ∈ t, dictReaderGet f r' ≠ CsvField.noneVal :=
      fun r' h' => hl r' (by simp [h'])
    cases hg : dictReaderGet f r with
    | noneVal => exact absurd hg hr
    | missing =>
      simp only [parse_app_ids, hg, List.filterMap_cons]
      exact ih ht
    | strVal s =>
      cases hi : pyInt? s with
      | some n =>
        simp only [parse_app_ids, hg, hi, List.filterMap_cons]
        rw [ih ht]
      | none =>
        simp only [parse_app_ids, hg, hi, List.filterMap_cons]
        exact ih ht

/-- Claim C10, counterexample: a non-blank row shorter than the header
makes the DictReader fill the identifier with None, so int(None) raises
TypeError instead of skipping the row — the call does not return the
remaining parsed identifiers. -/
theorem C10_counterexample :
    load_app_ids ["id", "app_id"] [["5"], ["6", "7"]] none = LoadResult.typeError ∧
    load_app_ids ["id", "app_id"] [["5"], ["6", "7"]] none ≠ LoadResult.ok [7] := by
  refine ⟨by decide, by decide⟩

/-- Claim C10, amended: when no non-blank row is shorter than the header
at the identifier column, rows whose column lookup raises KeyError and
rows whose value fails integer parsing are silently skipped, and the
successfully parsed identifiers are returned in file order. -/
theorem C10_skip_unparsed (f : List String) (rs : List (List String))
    (h : ∀ r ∈ rs.filter (fun r => !r.isEmpty), dictReaderGet f r ≠ CsvField.noneVal) :
    load_app_ids f rs none =
      LoadResult.ok ((rs.filter (fun r => !r.isEmpty)).filterMap (fun r =>
        match dictReaderGet f r with
        | CsvField.strVal s => pyInt? s
        | _ => none)) := by
  unfold load_app_ids
  rw [parse_app_ids_eq_filterMap f _ h]

/-- Claim C10, witness: the amended theorem at a file whose second row
holds an unparseable value, which is skipped. -/
theorem C10_witness :
    load_app_ids ["app_id"] [["10"], ["x"], []] none = LoadResult.ok [10] := by
  have h := C10_skip_unparsed ["app_id"] [["10"], ["x"], []] (by decide)
  exact h.trans (by decide)

/- ---------------------------------------------------------------------
Tag-cleanup regex lemmas (claim C8).
--------------------------------------------------------------------- -/

theorem alphanum_not_pySpace {c : Char} (h : c.isAlphanum = true) : isPySpace c = false := by
  cases hs : isPySpace c with
  | false => rfl
  | true =>
    exfalso
    simp only [isPySpace, Bool.or_eq_true, beq_iff_eq] at hs
    rcases hs with (((((rfl | rfl) | rfl) | rfl) | rfl) | rfl) <;> exact absurd h (by decide)

theorem takeWhile_of_all {p : Char → Bool} : ∀ {l : List Char},
    (∀ c ∈ l, p c = true) → l.takeWhile p = l := by
  intro l
  induction l with
  | nil => intro _; rfl
  | cons c t ih =>
    intro h
    rw [List.takeWhile_cons, h c (by simp)]
    simp [ih (fun x hx => h x (by simp [hx]))]

theorem mem_takeWhile_pred {p : Char → Bool} : ∀ {l : List Char} {x : Char},
    x ∈ l.takeWhile p → p x = true := by
  intro l
  induction l with
  | nil => intro x hx; simp at hx
  | cons c t ih =>
    intro x hx
    rw [List.takeWhile_cons] at hx
    by_cases hc : p c = true
    · rw [if_pos hc] at hx
      rcases List.mem_cons.mp hx with rfl | hx'
      · exact hc
      · exact ih hx'
    · rw [if_neg hc] at hx
      simp at hx

theorem mem_dropWhile_sub {p : Char → Bool} : ∀ {l : List Char} {x : Char},
    x ∈ l.dropWhile p → x ∈ l := by
  intro l
  induction l with
  | nil => intro x hx; simp at hx
  | cons c t ih =>
    intro x hx
    rw [List.dropWhile_cons] at hx
    by_cases hc : p c = true
    · rw [if_pos hc] at hx
      exact List.mem_cons_of_mem c (ih hx)
    · rw [if_neg hc] at hx
      exact hx

theorem dropWhile_shape : ∀ {l : List Char}, l.any Char.isAlphanum = true →
    ∃ c0 rr, l.dropWhile tagStripClass = c0 :: rr ∧ c0.isAlphanum = true := by
  intro l
  induction l with
  | nil => intro h; simp at h
  | cons c t ih =>
    intro h
    by_cases hc : c.isAlphanum = true
    · refine ⟨c, t, ?_, hc⟩
      rw [List.dropWhile_cons, if_neg (by simp [tagStripClass, hc])]
    · have hcf : c.isAlphanum = false := by
        cases hcc : c.isAlphanum
        · rfl
        · exact absurd hcc hc
      have ht : t.any Char.isAlphanum = true := by
        simp only [List.any_cons, Bool.or_eq_true] at h
        rcases h with h | h
        · exact absurd h hc
        · exact h
      rw [List.dropWhile_cons, if_pos (by simp [tagStripClass, hcf])]
      exact ih ht

theorem dotPlus?_eval {c0 : Char} {rr : List Char}
    (hall : ∀ x ∈ c0 :: rr, (x == '\n') = false) :
    dotPlus? (c0 :: rr) = some (c0 :: rr) := by
  unfold dotPlus?
  dsimp only
  rw [if_neg (by simp [hall c0 (by simp)])]
  rw [takeWhile_of_all (fun x hx => by simp [hall x hx])]

theorem wsStarDotPlus_eval {c0 : Char} {rr : List Char} (hc0 : c0.isAlphanum = true)
    (hall : ∀ x ∈ c0 :: rr, (x == '\n') = false) :
    wsStarDotPlus (c0 :: rr) = some (c0 :: rr) := by
  unfold wsStarDotPlus
  rw [if_neg (by simp [alphanum_not_pySpace hc0])]
  exact dotPlus?_eval hall

theorem g1Cont_eval {c0 : Char} {rr : List Char} (hc0 : c0.isAlphanum = true)
    (hall : ∀ x ∈ c0 :: rr, (x == '\n') = false) :
    ∀ p : List Char, (∀ c ∈ p, tagStripClass c = true) →
      g1Cont (p ++ c0 :: rr) = some (c0 :: rr) := by
  intro p
  induction p with
  | nil =>
    intro _
    rw [List.nil_append]
    unfold g1Cont
    rw [if_neg (by simp [tagStripClass, hc0])]
    exact wsStarDotPlus_eval hc0 hall
  | cons q p' ih =>
    intro hp
    rw [List.cons_append]
    unfold g1Cont
    rw [if_pos (hp q (by simp))]
    rw [ih (fun c hc => hp c (by simp [hc]))]

theorem reGroup2_append {c0 : Char} {rr : List Char} (hc0 : c0.isAlphanum = true)
    (hall : ∀ x ∈ c0 :: rr, (x == '\n') = false) :
    ∀ p : List Char, (∀ c ∈ p, tagStripClass c = true) →
      reGroup2 (p ++ c0 :: rr) = some (c0 :: rr) := by
  intro p hp
  cases p with
  | nil =>
    rw [List.nil_append]
    unfold reGroup2
    dsimp only
    rw [if_neg (by simp [tagStripClass, hc0])]
    exact wsStarDotPlus_eval hc0 hall
  | cons q p' =>
    rw [List.cons_append]
    unfold reGroup2
    dsimp only
    rw [if_pos (hp q (by simp))]
    rw [g1Cont_eval hc0 hall p' (fun c hc => hp c (by simp [hc]))]

theorem reGroup2_eval (t : List Char)
    (hword : t.any Char.isAlphanum = true)
    (hnl : ∀ x ∈ t, (x == '\n') = false) :
    reGroup2 t = some (t.dropWhile tagStripClass) := by
  obtain ⟨c0, rr, hdrop, hc0⟩ := dropWhile_shape hword
  have hall : ∀ x ∈ c0 :: rr, (x == '\n') = false := by
    intro x hx
    have hx' : x ∈ t.dropWhile tagStripClass := by
      rw [hdrop]
      exact hx
    exact hnl x (mem_dropWhile_sub hx')
  have hsplit : t = t.takeWhile tagStripClass ++ (c0 :: rr) := by
    rw [← hdrop, List.takeWhile_append_dropWhile]
  calc reGroup2 t
      = reGroup2 (t.takeWhile tagStripClass ++ (c0 :: rr)) := by rw [← hsplit]
    _ = some (c0 :: rr) := reGroup2_append hc0 hall _ (fun c hc => mem_takeWhile_pred hc)
    _ = some (t.dropWhile tagStripClass) := by rw [hdrop]

/-- Claim C8, counterexample: on a text of decorative glyphs only, the
claimed strip-the-leading-non-word-run-and-trim result is empty and would
be dropped, but the extractor keeps a glyph because the optional group of
the pattern backtracks. -/
theorem C8_counterexample :
    cleanTags ["★★"] = ["★"] ∧
    pyStrip (String.mk (("★★".data).dropWhile tagStripClass)) = "" := by
  refine ⟨by decide, by decide⟩

/-- Claim C8, amended: for every tag link text that contains a word
character and no newline, the extractor strips the single leading run of
non-word-or-underscore characters and keeps the trimmed remainder; the
two spec examples hold; names that clean to the empty string are dropped
from the tag list; the tag extractor applies this cleanup to every link
text of the selected region. -/
theorem C8_tag_cleanup :
    (∀ t : String, t.data.any Char.isAlphanum = true →
        (∀ x ∈ t.data, (x == '\n') = false) →
        tagName t = pyStrip (String.mk (t.data.dropWhile tagStripClass))) ∧
    tagName "★ Action" = "Action" ∧
    tagName "RPG" = "RPG" ∧
    (∀ texts : List String, "" ∉ cleanTags texts) ∧
    (∀ (d : Doc) (texts : List String), d.storeTags = some texts →
        tagsParse d = [("tags", Value.list (cleanTags texts))]) := by
  refine ⟨?_, by decide, by decide, ?_, ?_⟩
  · intro t hword hnl
    unfold tagName
    rw [reGroup2_eval t.data hword hnl]
  · intro texts hmem
    obtain ⟨t, _, ht⟩ := List.mem_filterMap.mp hmem
    dsimp only at ht
    by_cases h : tagName t = ""
    · rw [if_pos h] at ht
      cases ht
    · rw [if_neg h] at ht
      exact h (Option.some.inj ht)
  · intro d texts hst
    unfold tagsParse
    rw [hst]

/-- Claim C8, witness of the amended cleanup equation at the decorated
spec example. -/
theorem C8_witness :
    tagName "★ Action" = pyStrip (String.mk (("★ Action".data).dropWhile tagStripClass)) :=
  C8_tag_cleanup.1 "★ Action" (by decide) (by decide)

/- ---------------------------------------------------------------------
Release-date regex lemmas (claim C7).
--------------------------------------------------------------------- -/

theorem take_len_append (l1 l2 : List Char) (i : Nat) :
    (l1 ++ l2).take (l1.length + i) = l1 ++ l2.take i := by
  induction l1 with
  | nil => simp
  | cons c t ih =>
    simp only [List.cons_append, List.length_cons]
    rw [show t.length + 1 + i = (t.length + i) + 1 from by omega, List.take_succ_cons, ih]

theorem drop_takeWhile_len (p : Char → Bool) : ∀ l : List Char,
    l.drop (l.takeWhile p).length = l.dropWhile p := by
  intro l
  induction l with
  | nil => rfl
  | cons c t ih =>
    rw [List.takeWhile_cons, List.dropWhile_cons]
    by_cases hc : p c = true
    · rw [if_pos hc, if_pos hc, List.length_cons, List.drop_succ_cons]
      exact ih
    · rw [if_neg hc, if_neg hc]
      rfl

theorem takeWhile_append_stop {p : Char → Bool} (mon : List Char) {c : Char} (z : List Char)
    (hmon : ∀ x ∈ mon, p x = true) (hc : p c = false) :
    (mon ++ c :: z).takeWhile p = mon := by
  induction mon with
  | nil =>
    rw [List.nil_append, List.takeWhile_cons, hc]
    simp
  | cons m t ih =>
    rw [List.cons_append, List.takeWhile_cons, hmon m (by simp)]
    simp only [if_true]
    rw [ih (fun x hx => hmon x (by simp [hx]))]

theorem timeTail_inv {cs : List Char} (h : timeTail cs = true) :
    ∃ h1 h2 m1 m2 s1 s2 tail,
      cs = ' ' :: '–' :: ' ' :: h1 :: h2 :: ':' :: m1 :: m2 :: ':' :: s1 :: s2 ::
        ' ' :: 'U' :: 'T' :: 'C' :: tail ∧
      (h1.isDigit && h2.isDigit && m1.isDigit && m2.isDigit && s1.isDigit && s2.isDigit) = true := by
  unfold timeTail at h
  split at h
  · next h1 h2 m1 m2 s1 s2 tail => exact ⟨h1, h2, m1, m2, s1, s2, tail, rfl, h⟩
  · exact absurd h (by simp)

theorem yearRest_inv {cs : List Char} (h : yearRest cs = true) :
    ∃ y1 y2 y3 y4 rest, cs = y1 :: y2 :: y3 :: y4 :: rest ∧
      (y1.isDigit && y2.isDigit && y3.isDigit && y4.isDigit) = true ∧
      timeTail rest = true := by
  unfold yearRest at h
  split at h
  · next y1 y2 y3 y4 rest =>
    rw [Bool.and_eq_true] at h
    exact ⟨y1, y2, y3, y4, rest, rfl, h.1, h.2⟩
  · exact absurd h (by simp)

theorem monthRest_inv {cs : List Char} {n : Nat} (h : monthRest cs = some n) :
    cs.takeWhile isWordChar ≠ [] ∧
    ∃ rest, cs.dropWhile isWordChar = ' ' :: rest ∧ yearRest rest = true ∧
      n = (cs.takeWhile isWordChar).length + 20 := by
  unfold monthRest at h
  by_cases he : (cs.takeWhile isWordChar).isEmpty = true
  · rw [if_pos he] at h
    exact absurd h (by simp)
  · rw [if_neg he] at h
    refine ⟨fun hnil => he (by simp [hnil]), ?_⟩
    rw [drop_takeWhile_len] at h
    split at h
    · next c rest heq =>
      by_cases hc : c = ' '
      · rw [if_pos hc] at h
        subst hc
        by_cases hy : yearRest rest = true
        · rw [if_pos hy] at h
          exact ⟨rest, heq, hy, (Option.some.inj h).symm⟩
        · rw [if_neg hy] at h
          exact absurd h (by simp)
      · rw [if_neg hc] at h
        exact absurd h (by simp)
    · exact absurd h (by simp)

theorem monthRest_of_shape (mon : List Char) (post : List Char)
    {y1 y2 y3 y4 h1 h2 mi1 mi2 s1 s2 : Char}
    (hmon : mon ≠ []) (hall : ∀ x ∈ mon, isWordChar x = true)
    (hy : (y1.isDigit && y2.isDigit && y3.isDigit && y4.isDigit) = true)
    (ht : (h1.isDigit && h2.isDigit && mi1.isDigit && mi2.isDigit && s1.isDigit && s2.isDigit) = true) :
    monthRest (mon ++ ' ' :: y1 :: y2 :: y3 :: y4 :: ' ' :: '–' :: ' ' :: h1 :: h2 :: ':' ::
      mi1 :: mi2 :: ':' :: s1 :: s2 :: ' ' :: 'U' :: 'T' :: 'C' :: post) = some (mon.length + 20) := by
  have hne : mon.isEmpty = false := by
    cases mon with
    | nil => exact absurd rfl hmon
    | cons a b => rfl
  have hyr : yearRest (y1 :: y2 :: y3 :: y4 :: ' ' :: '–' :: ' ' :: h1 :: h2 :: ':' ::
      mi1 :: mi2 :: ':' :: s1 :: s2 :: ' ' :: 'U' :: 'T' :: 'C' :: post) = true := by
    unfold yearRest
    dsimp only
    rw [hy, Bool.true_and]
    exact ht
  unfold monthRest
  rw [takeWhile_append_stop mon _ hall (by decide)]
  rw [if_neg (by simp [hne])]
  rw [List.drop_left]
  dsimp only
  rw [if_pos rfl, if_pos hyr]

theorem dateMatchAt_of_shape {mid post : List Char} (h : DateShape mid) :
    dateMatchAt (mid ++ post) = some mid.length := by
  obtain ⟨d, mon, y1, y2, y3, y4, hh1, hh2, hm1, hm2, hs1, hs2, hcs, hdl, hdd, hmonne, hmall, hy, ht⟩ := h
  subst hcs
  have hmall' : ∀ x ∈ mon, isWordChar x = true := List.all_eq_true.mp hmall
  have hmr := monthRest_of_shape mon post hmonne hmall' hy ht
  rcases hdl with hd1 | hd2
  · obtain ⟨d1, rfl⟩ := List.length_eq_one.mp hd1
    have hd1d : d1.isDigit = true := by simpa using hdd
    simp only [List.cons_append, List.nil_append, List.append_assoc, List.length_cons,
      List.length_append, List.length_nil]
    unfold dateMatchAt
    dsimp only
    rw [if_pos hd1d]
    rw [if_neg (by decide), if_pos rfl]
    rw [hmr]
    simp only [Option.map_some', Option.some.injEq]
  · obtain ⟨d1, d2, rfl⟩ : ∃ a b, d = [a, b] := by
      cases d with
      | nil => simp at hd2
      | cons a t =>
        cases t with
        | nil => simp at hd2
        | cons b t2 =>
          cases t2 with
          | nil => exact ⟨a, b, rfl⟩
          | cons e t3 => simp at hd2
    have hdd' : d1.isDigit = true ∧ d2.isDigit = true := by
      simpa [List.all_cons, Bool.and_eq_true] using hdd
    simp only [List.cons_append, List.nil_append, List.append_assoc, List.length_cons,
      List.length_append, List.length_nil]
    unfold dateMatchAt
    dsimp only
    rw [if_pos hdd'.1]
    rw [if_pos hdd'.2]
    rw [if_pos rfl]
    rw [hmr]
    simp only [Option.map_some', Option.some.injEq]

theorem shape_of_dateMatchAt : ∀ {cs : List Char} {n : Nat},
    dateMatchAt cs = some n → DateShape (cs.take n) := by
  intro cs n h
  cases cs with
  | nil => exact absurd h (by simp [dateMatchAt])
  | cons c1 rest =>
    unfold dateMatchAt at h
    dsimp only at h
    by_cases h1 : c1.isDigit = true
    case neg =>
      rw [if_neg h1] at h
      exact absurd h (by simp)
    rw [if_pos h1] at h
    cases rest with
    | nil => exact absurd h (by simp)
    | cons c2 rest2 =>
      dsimp only at h
      by_cases h2 : c2.isDigit = true
      · rw [if_pos h2] at h
        cases rest2 with
        | nil => exact absurd h (by simp)
        | cons c3 rest3 =>
          dsimp only at h
          by_cases h3 : c3 = ' '
          case neg =>
            rw [if_neg h3] at h
            exact absurd h (by simp)
          rw [if_pos h3] at h
          subst h3
          cases hm : monthRest rest3 with
          | none =>
            rw [hm] at h
            exact absurd h (by simp)
          | some k =>
            rw [hm] at h
            simp only [Option.map_some', Option.some.injEq] at h
            obtain ⟨hmonne, rest4, hdw, hyr, hk⟩ := monthRest_inv hm
            obtain ⟨y1, y2, y3, y4, rest5, h5, hy, htt⟩ := yearRest_inv hyr
            obtain ⟨hh1, hh2, hmm1, hmm2, hss1, hss2, tail, h6, hdig⟩ := timeTail_inv htt
            set M := rest3.takeWhile isWordChar with hM
            have hrest3 : rest3 = M ++ (' ' :: rest4) := by
              rw [hM, ← hdw, List.takeWhile_append_dropWhile]
            have hn : n = M.length + 23 := by omega
            refine ⟨[c1, c2], M, y1, y2, y3, y4,
              hh1, hh2, hmm1, hmm2, hss1, hss2, ?_, Or.inr rfl,
              by simp [List.all_cons, h1, h2], hmonne,
              List.all_eq_true.mpr (fun x hx => mem_takeWhile_pred (hM ▸ hx)), hy, hdig⟩
            rw [hn]
            rw [show M.length + 23 = ((M.length + 20) + 1 + 1) + 1 from by omega]
            rw [List.take_succ_cons, List.take_succ_cons, List.take_succ_cons]
            conv_lhs => rw [hrest3]
            rw [take_len_append M (' ' :: rest4) 20]
            rw [h5, h6]
            rfl
      · rw [if_neg h2] at h
        by_cases h2' : c2 = ' '
        case neg =>
          rw [if_neg h2'] at h
          exact absurd h (by simp)
        rw [if_pos h2'] at h
        subst h2'
        cases hm : monthRest rest2 with
        | none =>
          rw [hm] at h
          exact absurd h (by simp)
        | some k =>
          rw [hm] at h
          simp only [Option.map_some', Option.some.injEq] at h
          obtain ⟨hmonne, rest4, hdw, hyr, hk⟩ := monthRest_inv hm
          obtain ⟨y1, y2, y3, y4, rest5, h5, hy, htt⟩ := yearRest_inv hyr
          obtain ⟨hh1, hh2, hmm1, hmm2, hss1, hss2, tail, h6, hdig⟩ := timeTail_inv htt
          set M := rest2.takeWhile isWordChar with hM
          have hrest2 : rest2 = M ++ (' ' :: rest4) := by
            rw [hM, ← hdw, List.takeWhile_append_dropWhile]
          have hn : n = M.length + 22 := by omega
          refine ⟨[c1], M, y1, y2, y3, y4,
            hh1, hh2, hmm1, hmm2, hss1, hss2, ?_, Or.inl rfl,
            by simp [List.all_cons, h1], hmonne,
            List.all_eq_true.mpr (fun x hx => mem_takeWhile_pred (hM ▸ hx)), hy, hdig⟩
          rw [hn]
          rw [show M.length + 22 = ((M.length + 20) + 1) + 1 from by omega]
          rw [List.take_succ_cons, List.take_succ_cons]
          conv_lhs => rw [hrest2]
          rw [take_len_append M (' ' :: rest4) 20]
          rw [h5, h6]
          rfl

theorem dateSearch_isSome_of_matchAt : ∀ (pre rest : List Char),
    (dateMatchAt rest).isSome = true → (dateSearch (pre ++ rest)).isSome = true := by
  intro pre
  induction pre with
  | nil =>
    intro rest h
    cases rest with
    | nil => simp [dateMatchAt] at h
    | cons c t =>
      rw [List.nil_append]
      unfold dateSearch
      cases hm : dateMatchAt (c :: t) with
      | some n => simp
      | none =>
        rw [hm] at h
        simp at h
  | cons c pre' ih =>
    intro rest h
    rw [List.cons_append]
    unfold dateSearch
    cases hm : dateMatchAt (c :: (pre' ++ rest)) with
    | some n => simp
    | none => exact ih rest h

theorem dateSearch_decomp : ∀ {cs m : List Char}, dateSearch cs = some m →
    (∃ pre post, cs = pre ++ m ++ post) ∧ DateShape m := by
  intro cs
  induction cs with
  | nil =>
    intro m h
    simp [dateSearch] at h
  | cons c rest ih =>
    intro m h
    unfold dateSearch at h
    cases hm : dateMatchAt (c :: rest) with
    | some n =>
      rw [hm] at h
      have hmq : m = (c :: rest).take n := (Option.some.inj h).symm
      subst hmq
      refine ⟨⟨[], (c :: rest).drop n, ?_⟩, shape_of_dateMatchAt hm⟩
      rw [List.nil_append, List.take_append_drop]
    | none =>
      rw [hm] at h
      obtain ⟨⟨pre, post, heq⟩, hsh⟩ := ih h
      exact ⟨⟨c :: pre, post, by simp [heq]⟩, hsh⟩

/-- Claim C7: a release-date text yields a non-null release date exactly
when it contains a substring of the date shape; the substring the search
returns has that shape; the spec example extracts exactly its matched
substring; and on a Release Date row the classification extractor stores
exactly the search result. -/
theorem C7_release_date :
    (∀ cs : List Char, (dateSearch cs).isSome = true ↔
        ∃ pre mid post, cs = pre ++ mid ++ post ∧ DateShape mid) ∧
    (∀ (cs m : List Char), dateSearch cs = some m → DateShape m) ∧
    dateSearch ("Released 3 July 2015 – 17:00:00 UTC worldwide").data =
      some ("3 July 2015 – 17:00:00 UTC").data ∧
    (∀ (labelCell valueCell : InfoCell) (acc : StoreData), labelCell.textStrip = "Release Date" →
        (storeInfoStep acc [labelCell, valueCell]).release_date =
          (match dateSearch valueCell.textSpaced.data with
           | some m => some (String.mk m)
           | none => acc.release_date)) := by
  refine ⟨?_, ?_, by decide, ?_⟩
  · intro cs
    constructor
    · intro h
      cases hs : dateSearch cs with
      | none =>
        rw [hs] at h
        simp at h
      | some m =>
        obtain ⟨⟨pre, post, heq⟩, hsh⟩ := dateSearch_decomp hs
        exact ⟨pre, m, post, heq, hsh⟩
    · rintro ⟨pre, mid, post, rfl, hsh⟩
      rw [List.append_assoc]
      refine dateSearch_isSome_of_matchAt pre (mid ++ post) ?_
      rw [dateMatchAt_of_shape hsh]
      rfl
  · intro cs m hs
    exact (dateSearch_decomp hs).2
  · intro labelCell valueCell acc hl
    have hstep : storeInfoStep acc [labelCell, valueCell] =
        (match dateSearch valueCell.textSpaced.data with
         | some m => { acc with release_date := some (String.mk m) }
         | none => acc) := by
      show storeInfoDispatch acc labelCell valueCell = _
      unfold storeInfoDispatch
      rw [hl]
      rfl
    rw [hstep]
    cases hds : dateSearch valueCell.textSpaced.data with
    | some m => rfl
    | none => rfl

/-- Claim C7, witness: the searched substring of the spec example has the
date shape. -/
theorem C7_witness : DateShape ("3 July 2015 – 17:00:00 UTC").data :=
  C7_release_date.2.1 ("Released 3 July 2015 – 17:00:00 UTC worldwide").data
    ("3 July 2015 – 17:00:00 UTC").data (by decide)
